import Mathlib

/-!
Verification of the oztoolz filesystem-manipulation library (fstools and
ioutils packages): a shallow embedding of the path/file/folder manipulator
hierarchy and of the temporary-resource manager, with theorems about the
claims of the specification.

Paths are modelled as lists of components whose head is the filesystem root
component.  Python strings, `pathlib` operations and the two error kinds of
the library (`EFailedToInitialize`, `EFailedToManipulate`) are modelled
explicitly; dynamic-typing failures (`TypeError`) are modelled by a small
Python-value layer, because several operations of the source build their log
message as `"..." + self.target` where `self.target` is a bound method.
-/

/-- An absolute filesystem path, as its list of components; the head is the
filesystem root component (for example `"/"`). -/
abbrev FsPath := List String

/-- Python `str.lower()` (ASCII case folding), written over the character
list of the string so that the kernel can evaluate it on concrete inputs. -/
def lowerStr (s : String) : String := ⟨s.data.map Char.toLower⟩

/-- Case folding of a path: models `os.path.abspath(p).lower()`.  Paths of the
model are already absolute, so only the case folding remains. -/
def lowerPath (p : FsPath) : FsPath := p.map lowerStr

/-- Embeds `ioutils.compare_paths`: the absolute forms of the two paths are
compared case-insensitively (the fallback branch of the source is reachable
only on an OS error, which the model does not inject). -/
def compare_paths (first second : FsPath) : Bool :=
  lowerPath first == lowerPath second

/-- The reversed `pathlib.Path.parents` sequence of an absolute path: every
proper ancestor, shortest first.  `Path("/a/b/c").parents` is
`[/a/b, /a, /]`; `is_subfolder` reverses it before comparing. -/
def pathParentsRev (p : FsPath) : List FsPath :=
  (List.range (p.length - 1)).map fun i => p.take (i + 1)

/-- The list `[Path(os.path.abspath(parent_path))] + parents` of
`ioutils.is_subfolder`, reversed: every ancestor of the path, the path itself
included, shortest first. -/
def pathWithParentsRev (p : FsPath) : List FsPath :=
  (List.range p.length).map fun i => p.take (i + 1)

/-- Embeds `ioutils.is_subfolder`: the reversed ancestor list of the candidate
subfolder must be at least as long as the reversed ancestor list of the parent
(the parent itself included), and the two lists must agree componentwise on
the length of the latter, each comparison done by `compare_paths`. -/
def is_subfolder (subfolder_path parent_path : FsPath) : Bool :=
  if (pathParentsRev subfolder_path).length <
      (pathWithParentsRev parent_path).length then false
  else
    (List.range (pathWithParentsRev parent_path).length).all fun i =>
      compare_paths ((pathWithParentsRev parent_path).getD i [])
        ((pathParentsRev subfolder_path).getD i [])

/-- One test of the selection loop of `TemporaryFoldersManager.cleanup`: the
folder at index `i` of the sorting queue may be removed next exactly when no
other queued folder is nested inside it. -/
def isNotParentAt (q : List FsPath) (i : Nat) : Bool :=
  (List.range q.length).all fun j =>
    i == j || !(is_subfolder (q.getD j []) (q.getD i []))

/-- The inner `for i in range(0, len(sorting_queue))` scan of
`TemporaryFoldersManager.cleanup`: the first index whose folder has no other
queued folder nested inside it. -/
def findNotParent (q : List FsPath) : Option Nat :=
  (List.range q.length).find? fun i => isNotParentAt q i

/-- The `while len(sorting_queue) > 0` loop of
`TemporaryFoldersManager.cleanup`, with explicit fuel (each iteration removes
one queue entry, so `q.length` fuel always suffices); `none` models the
`assert not not_parent is None` firing or the fuel running out. -/
def sortQueueAux : Nat → List FsPath → Option (List FsPath)
  | 0, q => if q.isEmpty then some [] else none
  | fuel + 1, q =>
    if q.isEmpty then some []
    else
      match findNotParent q with
      | none => none
      | some i =>
        match sortQueueAux fuel (q.eraseIdx i) with
        | none => none
        | some rest => some (q.getD i [] :: rest)

/-- The removal order over tracked folders computed by
`TemporaryFoldersManager.cleanup` before the removal pass. -/
def cleanup_order (folders : List FsPath) : Option (List FsPath) :=
  sortQueueAux folders.length folders

theorem pathParentsRev_length (p : FsPath) :
    (pathParentsRev p).length = p.length - 1 := by
  simp [pathParentsRev]

theorem pathWithParentsRev_length (p : FsPath) :
    (pathWithParentsRev p).length = p.length := by
  simp [pathWithParentsRev]

theorem is_subfolder_length_lt {sub par : FsPath} (hsub : sub ≠ [])
    (h : is_subfolder sub par = true) : par.length < sub.length := by
  unfold is_subfolder at h
  by_cases hlt :
      (pathParentsRev sub).length < (pathWithParentsRev par).length
  · simp [hlt] at h
  · have h1 : (pathWithParentsRev par).length ≤ (pathParentsRev sub).length :=
      Nat.le_of_not_lt hlt
    rw [pathParentsRev_length, pathWithParentsRev_length] at h1
    have h2 : 0 < sub.length := List.length_pos.mpr hsub
    omega

theorem exists_max_length (q : List FsPath) (h : q ≠ []) :
    ∃ m ∈ q, ∀ x ∈ q, x.length ≤ m.length := by
  induction q with
  | nil => exact absurd rfl h
  | cons a t ih =>
    by_cases ht : t = []
    · subst ht
      exact ⟨a, List.mem_cons_self a [], by simp⟩
    · obtain ⟨m, hm, hmax⟩ := ih ht
      by_cases hc : m.length ≤ a.length
      · refine ⟨a, List.mem_cons_self a t, ?_⟩
        intro x hx
        rcases List.mem_cons.mp hx with hx | hx
        · exact hx ▸ Nat.le_refl _
        · exact Nat.le_trans (hmax x hx) hc
      · refine ⟨m, List.mem_cons_of_mem a hm, ?_⟩
        intro x hx
        rcases List.mem_cons.mp hx with hx | hx
        · exact hx ▸ Nat.le_of_not_le hc
        · exact hmax x hx

theorem findNotParent_isSome (q : List FsPath) (hq : q ≠ [])
    (hne : ∀ p ∈ q, p ≠ []) : ∃ i, findNotParent q = some i := by
  obtain ⟨m, hm, hmax⟩ := exists_max_length q hq
  obtain ⟨k, hk, hkm⟩ := List.mem_iff_getElem.mp hm
  have hsat : isNotParentAt q k = true := by
    unfold isNotParentAt
    rw [List.all_eq_true]
    intro j hj
    rw [List.mem_range] at hj
    by_cases hij : k = j
    · simp [hij]
    · have hbe : (k == j) = false := by
        simp [hij]
      rw [hbe, Bool.false_or, Bool.not_eq_true']
      by_contra hcontra
      rw [Bool.not_eq_false] at hcontra
      have hjne : q.getD j [] ≠ [] := by
        apply hne
        rw [List.getD_eq_getElem q [] hj]
        exact List.getElem_mem hj
      have hlt := is_subfolder_length_lt hjne hcontra
      rw [List.getD_eq_getElem q [] hk, hkm] at hlt
      have hle : (q.getD j []).length ≤ m.length := by
        apply hmax
        rw [List.getD_eq_getElem q [] hj]
        exact List.getElem_mem hj
      omega
  have hsome : ((List.range q.length).find? fun i => isNotParentAt q i).isSome := by
    rw [List.find?_isSome]
    exact ⟨k, List.mem_range.mpr hk, hsat⟩
  obtain ⟨i, hi⟩ := Option.isSome_iff_exists.mp hsome
  exact ⟨i, hi⟩

theorem eraseIdx_subset' (q : List FsPath) (i : Nat) : q.eraseIdx i ⊆ q := by
  induction q generalizing i with
  | nil => simp [List.eraseIdx]
  | cons a t ih =>
    match i with
    | 0 =>
      simp only [List.eraseIdx]
      exact List.subset_cons_self a t
    | i + 1 =>
      simp only [List.eraseIdx]
      intro x hx
      rcases List.mem_cons.mp hx with hx | hx
      · exact hx ▸ List.mem_cons_self a t
      · exact List.mem_cons_of_mem a (ih i hx)

theorem eraseIdx_perm (q : List FsPath) (i : Nat) (hi : i < q.length) :
    q.Perm (q.getD i [] :: q.eraseIdx i) := by
  induction q generalizing i with
  | nil => simp at hi
  | cons a t ih =>
    match i with
    | 0 => simp [List.eraseIdx]
    | i + 1 =>
      have hi' : i < t.length := by
        simpa using hi
      have step := (ih i hi').cons a
      have hswap : (a :: t.getD i [] :: t.eraseIdx i).Perm
          (t.getD i [] :: a :: t.eraseIdx i) := List.Perm.swap _ _ _
      have hfull : (a :: t).Perm (t.getD i [] :: a :: t.eraseIdx i) :=
        step.trans hswap
      simpa [List.eraseIdx, List.getD_cons_succ] using hfull

theorem mem_eraseIdx_imp {b : FsPath} (q : List FsPath) (i : Nat)
    (hb : b ∈ q.eraseIdx i) :
    ∃ j, j < q.length ∧ j ≠ i ∧ q.getD j [] = b := by
  induction q generalizing i with
  | nil => simp [List.eraseIdx] at hb
  | cons a t ih =>
    match i with
    | 0 =>
      simp only [List.eraseIdx] at hb
      obtain ⟨k, hk, hkb⟩ := List.mem_iff_getElem.mp hb
      refine ⟨k + 1, by simpa using hk, Nat.succ_ne_zero k, ?_⟩
      rw [List.getD_cons_succ, List.getD_eq_getElem t [] hk]
      exact hkb
    | i + 1 =>
      simp only [List.eraseIdx] at hb
      rcases List.mem_cons.mp hb with hb | hb
      · exact ⟨0, Nat.succ_pos _, (Nat.succ_ne_zero i).symm, hb.symm⟩
      · obtain ⟨j, hj, hji, hjb⟩ := ih i hb
        refine ⟨j + 1, by simpa using hj, fun hcon => hji (Nat.succ_injective hcon), ?_⟩
        rw [List.getD_cons_succ]
        exact hjb

theorem sortQueueAux_spec (fuel : Nat) :
    ∀ q : List FsPath, q.length ≤ fuel → (∀ p ∈ q, p ≠ []) →
    ∃ o, sortQueueAux fuel q = some o ∧ o.Perm q ∧
      o.Pairwise (fun a b => is_subfolder b a = false) := by
  induction fuel with
  | zero =>
    intro q hlen _
    have hq : q = [] := List.length_eq_zero.mp (Nat.le_zero.mp hlen)
    subst hq
    exact ⟨[], rfl, List.Perm.refl [], List.Pairwise.nil⟩
  | succ n ih =>
    intro q hlen hne
    by_cases hq : q = []
    · subst hq
      exact ⟨[], rfl, List.Perm.refl [], List.Pairwise.nil⟩
    · obtain ⟨i, hfind⟩ := findNotParent_isSome q hq hne
      have hisat : isNotParentAt q i = true := by
        have := List.find?_some hfind
        simpa using this
      have hi : i < q.length := by
        have := List.mem_of_find?_eq_some hfind
        rwa [List.mem_range] at this
      have hlen' : (q.eraseIdx i).length ≤ n := by
        rw [List.length_eraseIdx_of_lt hi]
        omega
      have hne' : ∀ p ∈ q.eraseIdx i, p ≠ [] := fun p hp =>
        hne p (eraseIdx_subset' q i hp)
      obtain ⟨o', ho', hperm', hpair'⟩ := ih (q.eraseIdx i) hlen' hne'
      refine ⟨q.getD i [] :: o', ?_, ?_, ?_⟩
      · have hqe : q.isEmpty = false := by
          cases q with
          | nil => exact absurd rfl hq
          | cons a t => rfl
        simp only [sortQueueAux, hqe, Bool.false_eq_true, if_false, hfind, ho']
      · exact (hperm'.cons (q.getD i [])).trans (eraseIdx_perm q i hi).symm
      · rw [List.pairwise_cons]
        refine ⟨?_, hpair'⟩
        intro b hb
        have hbe : b ∈ q.eraseIdx i := (hperm'.mem_iff).mp hb
        obtain ⟨j, hj, hji, hjb⟩ := mem_eraseIdx_imp q i hbe
        have hall := (List.all_eq_true.mp hisat) j (List.mem_range.mpr hj)
        have hij : (i == j) = false := by
          rw [beq_eq_false_iff_ne]
          exact fun h => hji h.symm
        rw [hij, Bool.false_or, Bool.not_eq_true'] at hall
        rw [← hjb]
        exact hall

/-- C1: for every set of folders tracked by a `TemporaryFoldersManager` (all
paths absolute, hence nonempty component lists), the removal order computed
by `cleanup()` exists (the selection loop's assertion never fires), contains
exactly the tracked folders, and never places a folder before another tracked
folder nested inside it: whenever `a` precedes `b` in the removal order, `b`
is not a subfolder of `a`, so `root/a/b` is removed before `root/a` before
`root` whatever the insertion order was. -/
theorem cleanup_removal_order_safe (q : List FsPath)
    (hne : ∀ p ∈ q, p ≠ []) :
    ∃ o, cleanup_order q = some o ∧ o.Perm q ∧
      o.Pairwise (fun a b => is_subfolder b a = false) :=
  sortQueueAux_spec q.length q (Nat.le_refl _) hne

/-- Witness for C1 at the specification's example set of tracked folders. -/
theorem cleanup_removal_order_safe_witness :
    (∀ p ∈ [["/", "root"], ["/", "root", "a"], ["/", "root", "a", "b"]],
      p ≠ ([] : FsPath)) ∧
    ∃ o,
      cleanup_order
        [["/", "root"], ["/", "root", "a"], ["/", "root", "a", "b"]] =
          some o ∧
      o.Perm [["/", "root"], ["/", "root", "a"], ["/", "root", "a", "b"]] ∧
      o.Pairwise (fun a b => is_subfolder b a = false) :=
  ⟨by decide, cleanup_removal_order_safe _ (by decide)⟩

/-- Concrete evaluation of the cleanup ordering loop on the specification's
example: the deepest tracked folder is selected first. -/
theorem cleanup_order_concrete :
    cleanup_order [["/", "root"], ["/", "root", "a"], ["/", "root", "a", "b"]] =
      some [["/", "root", "a", "b"], ["/", "root", "a"], ["/", "root"]] := by
  decide

/-- The filesystem state: directories, and regular files with their byte
content.  Lookups are case-insensitive, modelling the library's deliberate
case-folded path identity on a case-insensitive host filesystem. -/
structure FS where
  dirs : List FsPath
  files : List (FsPath × String)
deriving Repr, DecidableEq

def FS.isDir (fs : FS) (p : FsPath) : Bool :=
  fs.dirs.any fun q => lowerPath q == lowerPath p

def FS.isFile (fs : FS) (p : FsPath) : Bool :=
  fs.files.any fun qc => lowerPath qc.1 == lowerPath p

/-- Models `os.path.exists` and `pathlib.Path.exists`. -/
def FS.pathExists (fs : FS) (p : FsPath) : Bool :=
  fs.isDir p || fs.isFile p

def FS.fileContent (fs : FS) (p : FsPath) : Option String :=
  (fs.files.find? fun qc => lowerPath qc.1 == lowerPath p).map Prod.snd

/-- Models `pathlib.Path.parent`: drop the last component; for a root path
(only the root component left) the parent is the path itself, never `None`. -/
def pyParent (p : FsPath) : FsPath :=
  if p.length ≤ 1 then p else p.dropLast

/-- Models `Path.mkdir()` for a path guarded by a prior existence check. -/
def FS.mkdirAdd (fs : FS) (p : FsPath) : FS :=
  { fs with dirs := fs.dirs ++ [p] }

/-- Models `Path.touch()` creating an empty file, guarded by goal a prior
existence check. -/
def FS.touchAdd (fs : FS) (p : FsPath) : FS :=
  { fs with files := fs.files ++ [(p, "")] }

def FS.removeFileAt (fs : FS) (p : FsPath) : FS :=
  { fs with files := fs.files.filter fun qc => !(lowerPath qc.1 == lowerPath p) }

def FS.removeDirOnly (fs : FS) (p : FsPath) : FS :=
  { fs with dirs := fs.dirs.filter fun q => !(lowerPath q == lowerPath p) }

/-- Case-insensitive test that `q` is strictly nested below `p`. -/
def isUnder (q p : FsPath) : Bool :=
  decide (p.length < q.length) && ((lowerPath q).take p.length == lowerPath p)

def FS.hasEntryUnder (fs : FS) (p : FsPath) : Bool :=
  (fs.dirs.any fun q => isUnder q p) ||
    (fs.files.any fun qc => isUnder qc.1 p)

/-- Immediate child directories, in filesystem enumeration order. -/
def FS.childDirs (fs : FS) (p : FsPath) : List FsPath :=
  fs.dirs.filter fun q => isUnder q p && q.length == p.length + 1

/-- Immediate child files, in filesystem enumeration order. -/
def FS.childFiles (fs : FS) (p : FsPath) : List FsPath :=
  (fs.files.map Prod.fst).filter fun q => isUnder q p && q.length == p.length + 1

/-- Immediate children as produced by `FolderManipulator.list`: all child
directories first, then all child files, enumeration order preserved inside
each group. -/
def FS.childrenOf (fs : FS) (p : FsPath) : List FsPath :=
  fs.childDirs p ++ fs.childFiles p

/-- The exceptions observable at the boundaries of the library: `initError`
and `manipError` embed `EFailedToInitialize` and `EFailedToManipulate` (with
the manipulator name, and the action name for the latter); the remaining
constructors are the raw Python exceptions the source can let escape. -/
inductive PyErr where
  | initError : String → String → PyErr
  | manipError : String → String → PyErr
  | typeError : PyErr
  | valueError : PyErr
  | osError : PyErr
deriving Repr, DecidableEq

/-- A tiny model of the Python values appearing in the faulty expressions of
the source: strings, bound-method objects (such as `self.target` written
without call parentheses), and generator objects (the result of
`Path.iterdir()`). -/
inductive PyVal where
  | str : String → PyVal
  | boundMethod : PyVal
  | gen : List FsPath → PyVal
deriving Repr, DecidableEq

/-- Python string concatenation: defined only between two strings; adding a
bound method or a generator to a string raises `TypeError`. -/
def pyAdd : PyVal → PyVal → Except PyErr PyVal
  | .str a, .str b => .ok (.str (a ++ b))
  | _, _ => .error .typeError

/-- Python `len()`: a generator defines no length, so `len` applied to the
result of `Path.iterdir()` raises `TypeError`. -/
def pyLen : PyVal → Except PyErr Nat
  | .str s => .ok s.length
  | _ => .error .typeError

/-- The state of a `PathManipulator` (and of its file/folder variants): the
wrapped pathlib object (case preserved), the normalized path
(`os.path.abspath(path).lower()`), the manipulator name used in error
messages, and the temporary flag of the variants. -/
structure Manip where
  name : String
  pathObj : FsPath
  normPath : FsPath
  isTemp : Bool
deriving Repr, DecidableEq

/-- Embeds `PathManipulator.__init__` for a concrete path: wrapping fails
with `EFailedToInitialize` when the path does not exist, otherwise the
normalized path is the absolute case-folded form. -/
def mkManip (name : String) (fs : FS) (p : FsPath) : Except PyErr Manip :=
  if FS.pathExists fs p then .ok ⟨name, p, lowerPath p, false⟩
  else .error (.initError name "path does not exist")

/-- Models `str(path)` for an absolute path: the root component followed by
the remaining components joined with separators. -/
def joinPath : FsPath → String
  | [] => ""
  | r :: rest => r ++ String.intercalate "/" rest

/-- Embeds `PathManipulator.target`.  The guard `if self.path.parent is
None` of the source is dead, because a `pathlib` root is its own parent and
`parent` is never `None`; the returned value is
`str(self.path.relative_to(str(self.path.parent)))`, which is the final
component for a non-root path and the string `"."` for a root path. -/
def Manip.target (m : Manip) : String :=
  if pyParent m.pathObj = m.pathObj then "." else m.pathObj.getLastD ""

/-- Python `str.rfind`: the index of the last occurrence of the character,
or `-1` when it does not occur. -/
def pyRfind (s : String) (c : Char) : Int :=
  match s.data.reverse.findIdx? (fun x => x == c) with
  | none => -1
  | some i => ((s.data.length - 1 - i : Nat) : Int)

/-- Embeds the body of `FileManipulator.pure_name`: the target is sliced at
the LAST dot (`rfind`), although both the docstring ("excluding all
suffixes") and the unit tests promise stripping every suffix after the FIRST
dot. -/
def pureNameOf (t : String) : String :=
  if pyRfind t '.' == -1 then t
  else ⟨t.data.take (pyRfind t '.').toNat⟩

/-- `FileManipulator.pure_name` on a manipulator: the body applied to
`self.target()`. -/
def Manip.pure_name (m : Manip) : String := pureNameOf m.target

/-- Models `pathlib.Path.suffix` of the final path component: the last-dot
suffix, but empty when the dot is the first or the last character of the
name. -/
def pySuffix (name : String) : String :=
  let i := pyRfind name '.'
  if 0 < i ∧ i < (name.data.length : Int) - 1 then ⟨name.data.drop i.toNat⟩
  else ""

/-- Embeds `FileManipulator.extension`: `self.path.suffix[1:]`. -/
def extensionOf (t : String) : String := ⟨(pySuffix t).data.drop 1⟩

/-- `FileManipulator.extension` on a manipulator. -/
def Manip.extension (m : Manip) : String := extensionOf m.target

/-- Embeds `FolderManipulator.is_empty`: the body evaluates
`len(self.path.iterdir())`, but `iterdir()` returns a generator, so `len`
raises `TypeError`; the `except (OSError, ValueError)` clause does not catch
`TypeError`, so it escapes the manipulator raw. -/
def Manip.is_empty (fs : FS) (m : Manip) : Except PyErr Bool :=
  let body : Except PyErr Bool := do
    let n ← pyLen (.gen (FS.childrenOf fs m.pathObj))
    pure (n == 0)
  match body with
  | .ok b => .ok b
  | .error .osError => .error (.manipError m.name "is_empty")
  | .error .valueError => .error (.manipError m.name "is_empty")
  | .error e => .error e

/-- Embeds `FileManipulator.remove`: after the existence check, the log
message `"removing " + self.target + "..."` concatenates the bound method
`self.target` (the call parentheses are missing in the source), raising
`TypeError` before `unlink` is reached; `TypeError` is not among the caught
`(OSError, ValueError)` classes, so it escapes raw. -/
def fileRemove (fs : FS) (m : Manip) : Except PyErr FS :=
  if !(FS.pathExists fs m.normPath) then
    .error (.manipError m.name "remove")
  else
    let body : Except PyErr FS := do
      let msg ← pyAdd (.str "removing ") .boundMethod
      let _ ← pyAdd msg (.str "...")
      pure (fs.removeFileAt m.pathObj)
    match body with
    | .ok fs' => .ok fs'
    | .error .osError => .error (.manipError m.name "remove")
    | .error .valueError => .error (.manipError m.name "remove")
    | .error e => .error e

/-- The `for path in content: path.remove(...)` loop of
`FolderManipulator.remove`, over the directories-then-files child list;
`recurse` is the recursive removal of a child directory, `none` models
non-termination. -/
def folderRemoveChildren
    (recurse : FS → Manip → Option (Except PyErr FS)) :
    FS → List (Bool × FsPath) → Option (Except PyErr FS)
  | fs, [] => some (.ok fs)
  | fs, (isdir, p) :: rest =>
    if isdir then
      match recurse fs ⟨"Folder Manipulator", p, lowerPath p, false⟩ with
      | none => none
      | some (.error e) => some (.error e)
      | some (.ok fs') => folderRemoveChildren recurse fs' rest
    else
      match fileRemove fs ⟨"File Manipulator", p, lowerPath p, false⟩ with
      | .error e => some (.error e)
      | .ok fs' => folderRemoveChildren recurse fs' rest

/-- Embeds `FolderManipulator.remove`, with explicit fuel; `none` models
non-termination.  After the existence check, the body first builds the log
message `"removing " + self.target + "..."` from the bound method
`self.target`, which raises `TypeError` and escapes the
`except (OSError, ValueError)` clause raw.  The code after the message would
remove every child and then call `self.remove()` again - the source recurses
into itself instead of calling `rmdir` on the now-empty directory. -/
def folderRemove : Nat → FS → Manip → Option (Except PyErr FS)
  | 0, _, _ => none
  | fuel + 1, fs, m =>
    if !(FS.pathExists fs m.normPath) then
      some (.error (.manipError m.name "remove"))
    else
      let logMsg : Except PyErr PyVal := do
        let s ← pyAdd (.str "removing ") .boundMethod
        pyAdd s (.str "...")
      match logMsg with
      | .error .osError => some (.error (.manipError m.name "remove"))
      | .error .valueError => some (.error (.manipError m.name "remove"))
      | .error e => some (.error e)
      | .ok _ =>
        match folderRemoveChildren (folderRemove fuel) fs
            (((FS.childDirs fs m.pathObj).map fun p => (true, p)) ++
              ((FS.childFiles fs m.pathObj).map fun p => (false, p))) with
        | none => none
        | some (.error .osError) => some (.error (.manipError m.name "remove"))
        | some (.error .valueError) =>
          some (.error (.manipError m.name "remove"))
        | some (.error e) => some (.error e)
        | some (.ok fs') => folderRemove fuel fs' m

/-- Models `shutil.copy(src, dst)` for an existing source file: the byte
content of the source is written to the destination path (creating or
overwriting it). -/
def FS.shutilCopy (fs : FS) (src dst : FsPath) : FS :=
  match fs.fileContent src with
  | none => fs
  | some c =>
    { fs with
      files :=
        (fs.files.filter fun qc => !(lowerPath qc.1 == lowerPath dst)) ++
          [(dst, c)] }

/-- Models `shutil.move(src, dst)` for an existing source file: the file is
re-bound to the destination path with its content, and the source path no
longer exists. -/
def FS.shutilMove (fs : FS) (src dst : FsPath) : FS :=
  match fs.fileContent src with
  | none => fs
  | some c =>
    { fs with
      files :=
        (fs.files.filter fun qc => !(lowerPath qc.1 == lowerPath src)) ++
          [(dst, c)] }

/-- Embeds `PathManipulator.reset` with the `FileManipulator` override: the
path object and the normalized path are re-pointed in place to the new path
(which must exist); when the manipulator is temporary, the override then
removes the file at the NEW path through a fresh `FileManipulator(self)`,
wrapping only `EFailedToInitialize` into `EFailedToManipulate`. -/
def manipReset (fs : FS) (m : Manip) (p : FsPath) :
    Except PyErr (FS × Manip) :=
  if !(FS.pathExists fs p) then .error (.manipError m.name "reset")
  else
    let m' := { m with pathObj := p, normPath := lowerPath p }
    if m'.isTemp then
      match (do
          let fm ← mkManip "File Manipulator" fs m'.normPath
          fileRemove fs fm : Except PyErr FS) with
      | .error (.initError _ _) => .error (.manipError m.name "reset")
      | .error e => .error e
      | .ok fs' => .ok (fs', m')
    else .ok (fs, m')

/-- Embeds `FileManipulator.copy`.  After the existence check, the body
first builds `"coping " + self.target + " to " + str(destination) + "..."`,
where `self.target` is the bound method (missing call parentheses), raising
`TypeError`; the destination-collision check, `shutil.copy` and the returned
manipulator are never reached.  The `except` clause catches only `OSError`,
`ValueError` and `EFailedToInitialize`, so the `TypeError` escapes raw. -/
def fileCopy (fs : FS) (m : Manip) (destination : FsPath)
    (overwrite : Bool) : Except PyErr (FS × Manip) :=
  if !(FS.pathExists fs m.normPath) then
    .error (.manipError m.name "copy")
  else
    let body : Except PyErr (FS × Manip) := do
      let s1 ← pyAdd (.str "coping ") .boundMethod
      let s2 ← pyAdd s1 (.str " to ")
      let s3 ← pyAdd s2 (.str (joinPath destination))
      let _ ← pyAdd s3 (.str "...")
      if FS.pathExists fs destination && !overwrite then
        throw (.manipError m.name "copy")
      else
        let fs' := fs.shutilCopy m.pathObj destination
        let m' ← mkManip "File Manipulator" fs' destination
        pure (fs', m')
    match body with
    | .ok r => .ok r
    | .error .osError => .error (.manipError m.name "copy")
    | .error .valueError => .error (.manipError m.name "copy")
    | .error (.initError _ _) => .error (.manipError m.name "copy")
    | .error e => .error e

/-- Embeds `FileManipulator.move`: analogous to `copy`; the message
`"moving " + self.target + " to " + ...` raises `TypeError` before the
destination-existence check, `shutil.move` and the `reset` re-binding are
reached, and escapes the `except (OSError, ValueError,
EFailedToInitialize)` clause raw. -/
def fileMove (fs : FS) (m : Manip) (destination : FsPath) :
    Except PyErr (FS × Manip) :=
  if !(FS.pathExists fs m.normPath) then
    .error (.manipError m.name "move")
  else
    let body : Except PyErr (FS × Manip) := do
      let s1 ← pyAdd (.str "moving ") .boundMethod
      let s2 ← pyAdd s1 (.str " to ")
      let s3 ← pyAdd s2 (.str (joinPath destination))
      let _ ← pyAdd s3 (.str "...")
      if FS.pathExists fs destination then
        throw (.manipError m.name "move")
      else
        let fs' := fs.shutilMove m.pathObj destination
        manipReset fs' m destination
    match body with
    | .ok r => .ok r
    | .error .osError => .error (.manipError m.name "move")
    | .error .valueError => .error (.manipError m.name "move")
    | .error (.initError _ _) => .error (.manipError m.name "move")
    | .error e => .error e

/-- C2 (code_bug evaluation): the propagation policy fails on
`FolderManipulator.is_empty`: `len()` of the `iterdir()` generator raises
`TypeError` on every call, and the `except (OSError, ValueError)` clause
lets it cross the manipulator's public surface raw instead of re-wrapped as
`EFailedToManipulate`.  (Relatedly, `FileManipulator.temp` and
`FolderManipulator.rmdir` construct their wrapped error objects without
raising them, returning normally on failure.) -/
theorem is_empty_raises_raw_typeError (fs : FS) (m : Manip) :
    Manip.is_empty fs m = Except.error PyErr.typeError ∧
    ∀ a b, Manip.is_empty fs m ≠ Except.error (PyErr.manipError a b) := by
  refine ⟨rfl, fun a b h => ?_⟩
  have h' : (Except.error PyErr.typeError : Except PyErr Bool) =
      Except.error (PyErr.manipError a b) := h
  simp at h'

/-- C3 (code_bug evaluation): for every existing folder,
`FolderManipulator.remove` does not remove the directory and does not
terminate normally: the log message `"removing " + self.target + "..."`
raises `TypeError` immediately (and even past it, the final step calls
`self.remove()` recursively instead of `rmdir`), so the call raises a raw
`TypeError`, contradicting the claimed terminating depth-first removal that
the repository's `test_remove` also asserts. -/
theorem folderRemove_raises_raw_typeError (fuel : Nat) (fs : FS) (m : Manip)
    (h : FS.pathExists fs m.normPath = true) :
    folderRemove (fuel + 1) fs m = some (.error .typeError) := by
  unfold folderRemove
  rw [h]
  rfl

/-- Witness for C3: an existing empty folder `/d`. -/
theorem folderRemove_raises_raw_typeError_witness :
    FS.pathExists ⟨[["/"], ["/", "d"]], []⟩
        (⟨"Folder Manipulator", ["/", "d"], ["/", "d"], false⟩ : Manip).normPath
      = true ∧
    folderRemove 5 ⟨[["/"], ["/", "d"]], []⟩
        ⟨"Folder Manipulator", ["/", "d"], ["/", "d"], false⟩ =
      some (.error .typeError) :=
  ⟨by decide, folderRemove_raises_raw_typeError 4 _ _ (by decide)⟩

/-- C4 (code_bug evaluation): for the claim's file name `a.tar.gz`,
`pure_name()` returns `a.tar` - only the suffix after the LAST dot is
stripped (the body slices at `rfind`), not every suffix after the first dot
as the claim, the docstring ("excluding all suffixes") and the repository's
`test_pure_name` cases (for example `suffix.dmp.tmp` expecting `suffix`)
require; `extension()` does return the text after the last dot here. -/
theorem pure_name_keeps_middle_suffixes :
    Manip.pure_name ⟨"File Manipulator", ["/", "root", "a.tar.gz"],
        ["/", "root", "a.tar.gz"], false⟩ = "a.tar" ∧
    "a.tar" ≠ "a" ∧
    Manip.extension ⟨"File Manipulator", ["/", "root", "a.tar.gz"],
        ["/", "root", "a.tar.gz"], false⟩ = "gz" ∧
    pureNameOf "suffix.dmp.tmp" = "suffix.dmp" := by
  decide

/-- C5 (code_bug evaluation): for every existing source file and any
destination, `FileManipulator.move` raises a raw `TypeError` from the log
message `"moving " + self.target + ...` (a bound method, the call
parentheses are missing) before the destination-existence check,
`shutil.move` or the in-place `reset` are reached: neither the claimed
relocation (asserted by the repository's `test_move`) nor the claimed
`EFailedToManipulate` on an existing destination ever happens. -/
theorem fileMove_raises_raw_typeError (fs : FS) (m : Manip) (dst : FsPath)
    (h : FS.pathExists fs m.normPath = true) :
    fileMove fs m dst = .error .typeError := by
  unfold fileMove
  rw [h]
  rfl

/-- Witness for C5: moving the existing `/a.txt` to the fresh `/b.txt`. -/
theorem fileMove_raises_raw_typeError_witness :
    FS.pathExists ⟨[["/"]], [(["/", "a.txt"], "x")]⟩
        (⟨"File Manipulator", ["/", "a.txt"], ["/", "a.txt"], false⟩ :
          Manip).normPath = true ∧
    fileMove ⟨[["/"]], [(["/", "a.txt"], "x")]⟩
        ⟨"File Manipulator", ["/", "a.txt"], ["/", "a.txt"], false⟩
        ["/", "b.txt"] = .error .typeError :=
  ⟨by decide, fileMove_raises_raw_typeError _ _ _ (by decide)⟩

/-- C6 (code_bug evaluation): for every existing source file,
`FileManipulator.copy` raises a raw `TypeError` from the log message
`"coping " + self.target + ...` (a bound method) for both values of
`overwrite`, before the collision check or `shutil.copy` are reached: the
claimed `EFailedToManipulate` on collision and the claimed successful
byte-for-byte copy (both asserted by the repository's `test_copy`) never
happen. -/
theorem fileCopy_raises_raw_typeError (fs : FS) (m : Manip) (dst : FsPath)
    (overwrite : Bool) (h : FS.pathExists fs m.normPath = true) :
    fileCopy fs m dst overwrite = .error .typeError := by
  unfold fileCopy
  rw [h]
  rfl

/-- Witness for C6: copying the existing `/a.txt` onto the existing
`/b.txt` with `overwrite = false` (the claim's collision case). -/
theorem fileCopy_raises_raw_typeError_witness :
    FS.pathExists ⟨[["/"]], [(["/", "a.txt"], "x"), (["/", "b.txt"], "y")]⟩
        (⟨"File Manipulator", ["/", "a.txt"], ["/", "a.txt"], false⟩ :
          Manip).normPath = true ∧
    fileCopy ⟨[["/"]], [(["/", "a.txt"], "x"), (["/", "b.txt"], "y")]⟩
        ⟨"File Manipulator", ["/", "a.txt"], ["/", "a.txt"], false⟩
        ["/", "b.txt"] false = .error .typeError :=
  ⟨by decide, fileCopy_raises_raw_typeError _ _ _ _ (by decide)⟩

/-- C7 (code_bug evaluation): for a filesystem root, `target()` returns the
string `"."` (the value of `relative_to` against the path's parent, which
for a root is the path itself), not the whole path as claimed: the
`if self.path.parent is None` guard of the source expresses the claimed
behavior but is dead, because `pathlib` parents are never `None`.  For a
non-root path, `target()` does return the final component. -/
theorem target_of_root_is_dot :
    Manip.target ⟨"Path Manipulator", ["/"], ["/"], false⟩ = "." ∧
    Manip.target ⟨"Path Manipulator", ["/"], ["/"], false⟩ ≠ joinPath ["/"] ∧
    Manip.target ⟨"Path Manipulator", ["/", "home", "user"],
        ["/", "home", "user"], false⟩ = "user" := by
  decide

/-- The internal state of a `TemporaryFoldersManager`: the tracked folder
paths (insertion order of the `ManagedTemporaryFolder` objects appended to
`self.__folders`), the tracked file paths, and the `force_remove` flag. -/
structure TFMState where
  folders : List FsPath
  files : List FsPath
  forceRemove : Bool
deriving Repr, DecidableEq

/-- A freshly constructed manager: both sets empty, `force_remove` off. -/
def initialTFM : TFMState := ⟨[], [], false⟩

/-- The `for temp_folder in self.__folders` scan of `get_folder`: the first
tracked folder whose absolute path matches case-insensitively (the source
compares the `upper()` forms, an equivalent case folding). -/
def trackedLookup (st : TFMState) (p : FsPath) : Option FsPath :=
  st.folders.find? fun q => lowerPath q == lowerPath p

/-- The body of `ManagedTemporaryFolder.__init__`, shared by the two call
sites inside `get_folder`: when the parent directory does not exist, ask the
manager for it through `recurse` (tracking newly created parents), then
create the folder itself when it is still missing. -/
def managedInit
    (recurse : FS → TFMState → FsPath →
      Option (Except PyErr (FS × TFMState × FsPath)))
    (fs : FS) (st : TFMState) (p : FsPath) :
    Option (Except PyErr (FS × TFMState)) :=
  let afterParent : Option (Except PyErr (FS × TFMState)) :=
    if FS.pathExists fs (pyParent p) then some (.ok (fs, st))
    else
      match recurse fs st (pyParent p) with
      | none => none
      | some (.error e) => some (.error e)
      | some (.ok (fs', st', _)) => some (.ok (fs', st'))
  match afterParent with
  | none => none
  | some (.error e) => some (.error e)
  | some (.ok (fs', st')) =>
    if FS.pathExists fs' p then some (.ok (fs', st'))
    else some (.ok (fs'.mkdirAdd p, st'))

/-- Embeds `TemporaryFoldersManager.get_folder` together with the
`ManagedTemporaryFolder.__init__` it invokes (which recursively calls
`get_folder` on a missing parent), with explicit fuel for that recursion;
`none` models the fuel running out.  An already-tracked path is returned
as-is; a path that exists on disk raises a bare `ValueError` when it is not
a directory, and is otherwise wrapped WITHOUT being appended to the tracked
folders; only a path the call creates is appended.  Every raise precedes
every mutation, so an error result carries no successor state. -/
def get_folder : Nat → FS → TFMState → FsPath →
    Option (Except PyErr (FS × TFMState × FsPath))
  | 0, _, _, _ => none
  | fuel + 1, fs, st, p =>
    match trackedLookup st p with
    | some q => some (.ok (fs, st, q))
    | none =>
      if FS.pathExists fs p then
        if !(FS.isDir fs p) then some (.error .valueError)
        else
          match managedInit (get_folder fuel) fs st p with
          | none => none
          | some (.error e) => some (.error e)
          | some (.ok (fs', st')) => some (.ok (fs', st', p))
      else
        match managedInit (get_folder fuel) fs st p with
        | none => none
        | some (.error e) => some (.error e)
        | some (.ok (fs', st')) =>
          some (.ok (fs', { st' with folders := st'.folders ++ [p] }, p))

/-- Embeds `TemporaryFoldersManager.track_file`: idempotent by
case-insensitive comparison with the recorded files; otherwise the parent
folder is obtained through `get_folder`, the file is created when missing,
and its absolute path is appended. -/
def track_file (fuel : Nat) (fs : FS) (st : TFMState) (p : FsPath) :
    Option (Except PyErr (FS × TFMState)) :=
  if st.files.any (fun q => compare_paths p q) then some (.ok (fs, st))
  else
    match get_folder fuel fs st (pyParent p) with
    | none => none
    | some (.error e) => some (.error e)
    | some (.ok (fs', st', _)) =>
      let fs'' := if FS.pathExists fs' p then fs' else fs'.touchAdd p
      some (.ok (fs'', { st' with files := st'.files ++ [p] }))

/-- Models `Path.rmdir`: `OSError` unless the path is an existing directory
with no entry nested below it. -/
def pyRmdir (fs : FS) (p : FsPath) : Except PyErr FS :=
  if !(FS.isDir fs p) then .error .osError
  else if FS.hasEntryUnder fs p then .error .osError
  else .ok (fs.removeDirOnly p)

/-- Models `shutil.rmtree`: removes the directory and everything nested
below it; `OSError` when the directory is missing. -/
def pyRmtree (fs : FS) (p : FsPath) : Except PyErr FS :=
  if !(FS.isDir fs p) then .error .osError
  else
    .ok
      { dirs := fs.dirs.filter fun q =>
          !(lowerPath q == lowerPath p) && !(isUnder q p),
        files := fs.files.filter fun qc => !(isUnder qc.1 p) }

/-- The `for temp_file_path in self.__files` pass of `cleanup`: unlink each
tracked path that still exists as a file. -/
def cleanupFiles : FS → List FsPath → FS
  | fs, [] => fs
  | fs, p :: rest =>
    cleanupFiles
      (if FS.pathExists fs p && FS.isFile fs p then fs.removeFileAt p else fs)
      rest

/-- The removal pass of `cleanup` over the computed queue: `rmdir` each
folder, or `rmtree` it when `force_remove` is set. -/
def cleanupFolders (force : Bool) : FS → List FsPath → Except PyErr FS
  | fs, [] => .ok fs
  | fs, p :: rest =>
    match (if force then pyRmtree fs p else pyRmdir fs p) with
    | .error e => .error e
    | .ok fs' => cleanupFolders force fs' rest

/-- Embeds `TemporaryFoldersManager.cleanup`: unlinks the tracked files and
clears `self.__files`, computes the dependency-ordered folder queue, then
removes each folder in that order.  The source never clears
`self.__folders`, so the returned state keeps the tracked-folders list
unchanged. -/
def manager_cleanup (fs : FS) (st : TFMState) (force : Bool) :
    Option (Except PyErr (FS × TFMState)) :=
  let fs1 := cleanupFiles fs st.files
  let st1 : TFMState := { st with files := [] }
  match cleanup_order st1.folders with
  | none => none
  | some queue =>
    match cleanupFolders force fs1 queue with
    | .error e => some (.error e)
    | .ok fs2 => some (.ok (fs2, st1))

/-- Reachable configurations of a `TemporaryFoldersManager` driven from an
initial filesystem `fs0` and a freshly constructed manager by any sequence
of successful `get_folder` and `track_file` calls; the single-owner contract
of the library means nothing else mutates the filesystem meanwhile. -/
inductive Reaches (fs0 : FS) : FS → TFMState → Prop where
  | init : Reaches fs0 fs0 initialTFM
  | stepGet (fuel : Nat) (fs : FS) (st : TFMState) (p q : FsPath)
      (fs' : FS) (st' : TFMState) :
      Reaches fs0 fs st →
      get_folder fuel fs st p = some (.ok (fs', st', q)) →
      Reaches fs0 fs' st'
  | stepTrack (fuel : Nat) (fs : FS) (st : TFMState) (p : FsPath)
      (fs' : FS) (st' : TFMState) :
      Reaches fs0 fs st →
      track_file fuel fs st p = some (.ok (fs', st')) →
      Reaches fs0 fs' st'

/-- The invariant of C8: the filesystem only grew with respect to the
initial one, and every tracked folder was absent from the initial
filesystem, i.e. was created by the tracker itself. -/
def TrackerInv (fs0 fs : FS) (st : TFMState) : Prop :=
  (∀ r, FS.pathExists fs0 r = true → FS.pathExists fs r = true) ∧
  (∀ r ∈ st.folders, FS.pathExists fs0 r = false)

theorem FS.pathExists_mkdirAdd (fs : FS) (p r : FsPath)
    (h : FS.pathExists fs r = true) :
    FS.pathExists (fs.mkdirAdd p) r = true := by
  simp only [FS.pathExists, FS.isDir, FS.isFile, FS.mkdirAdd,
    List.any_append, List.any_cons, List.any_nil, Bool.or_eq_true] at h ⊢
  tauto

theorem FS.pathExists_touchAdd (fs : FS) (p r : FsPath)
    (h : FS.pathExists fs r = true) :
    FS.pathExists (fs.touchAdd p) r = true := by
  simp only [FS.pathExists, FS.isDir, FS.isFile, FS.touchAdd,
    List.any_append, List.any_cons, List.any_nil, Bool.or_eq_true] at h ⊢
  tauto

theorem managedInit_preserves
    (recurse : FS → TFMState → FsPath →
      Option (Except PyErr (FS × TFMState × FsPath)))
    (hrec : ∀ fs st p fs' st' q,
      recurse fs st p = some (.ok (fs', st', q)) →
      (∀ r, FS.pathExists fs r = true → FS.pathExists fs' r = true) ∧
      (∀ fs0, TrackerInv fs0 fs st → TrackerInv fs0 fs' st'))
    (fs : FS) (st : TFMState) (p : FsPath) (fs' : FS) (st' : TFMState)
    (h : managedInit recurse fs st p = some (.ok (fs', st'))) :
    (∀ r, FS.pathExists fs r = true → FS.pathExists fs' r = true) ∧
    (∀ fs0, TrackerInv fs0 fs st → TrackerInv fs0 fs' st') := by
  unfold managedInit at h
  cases hpar : FS.pathExists fs (pyParent p) with
  | true =>
    simp only [hpar, if_true] at h
    cases hex : FS.pathExists fs p with
    | true =>
      simp only [hex, if_true] at h
      simp only [Option.some.injEq, Except.ok.injEq, Prod.mk.injEq] at h
      obtain ⟨h1, h2⟩ := h
      subst h1; subst h2
      exact ⟨fun r hr => hr, fun fs0 hinv => hinv⟩
    | false =>
      simp only [hex, Bool.false_eq_true, if_false] at h
      simp only [Option.some.injEq, Except.ok.injEq, Prod.mk.injEq] at h
      obtain ⟨h1, h2⟩ := h
      subst h1; subst h2
      refine ⟨fun r hr => FS.pathExists_mkdirAdd fs p r hr, fun fs0 hinv => ?_⟩
      exact ⟨fun r hr => FS.pathExists_mkdirAdd fs p r (hinv.1 r hr), hinv.2⟩
  | false =>
    simp only [hpar, Bool.false_eq_true, if_false] at h
    cases hrecv : recurse fs st (pyParent p) with
    | none => simp only [hrecv] at h; cases h
    | some res =>
      cases res with
      | error e => simp only [hrecv] at h; cases h
      | ok triple =>
        obtain ⟨fs1, st1, q1⟩ := triple
        simp only [hrecv] at h
        have hstep := hrec fs st (pyParent p) fs1 st1 q1 hrecv
        cases hex1 : FS.pathExists fs1 p with
        | true =>
          simp only [hex1, if_true] at h
          simp only [Option.some.injEq, Except.ok.injEq, Prod.mk.injEq] at h
          obtain ⟨h1, h2⟩ := h
          subst h1; subst h2
          exact ⟨hstep.1, hstep.2⟩
        | false =>
          simp only [hex1, Bool.false_eq_true, if_false] at h
          simp only [Option.some.injEq, Except.ok.injEq, Prod.mk.injEq] at h
          obtain ⟨h1, h2⟩ := h
          subst h1; subst h2
          refine ⟨fun r hr => FS.pathExists_mkdirAdd fs1 p r (hstep.1 r hr),
            fun fs0 hinv => ?_⟩
          have hinv1 := hstep.2 fs0 hinv
          exact ⟨fun r hr => FS.pathExists_mkdirAdd fs1 p r (hinv1.1 r hr),
            hinv1.2⟩

theorem get_folder_preserves (fuel : Nat) :
    ∀ (fs : FS) (st : TFMState) (p : FsPath) (fs' : FS) (st' : TFMState)
      (q : FsPath),
    get_folder fuel fs st p = some (.ok (fs', st', q)) →
    (∀ r, FS.pathExists fs r = true → FS.pathExists fs' r = true) ∧
    (∀ fs0, TrackerInv fs0 fs st → TrackerInv fs0 fs' st') := by
  induction fuel with
  | zero =>
    intro fs st p fs' st' q h
    simp only [get_folder] at h
    cases h
  | succ n ih =>
    intro fs st p fs' st' q h
    cases hlook : trackedLookup st p with
    | some q0 =>
      simp only [get_folder, hlook, Option.some.injEq, Except.ok.injEq,
        Prod.mk.injEq] at h
      obtain ⟨h1, h2, h3⟩ := h
      subst h1; subst h2
      exact ⟨fun r hr => hr, fun fs0 hinv => hinv⟩
    | none =>
      cases hex : FS.pathExists fs p with
      | true =>
        cases hdir : FS.isDir fs p with
        | false =>
          simp [get_folder, hlook, hex, hdir] at h
        | true =>
          cases hmi : managedInit (get_folder n) fs st p with
          | none => simp [get_folder, hlook, hex, hdir, hmi] at h
          | some res =>
            cases res with
            | error e => simp [get_folder, hlook, hex, hdir, hmi] at h
            | ok pair =>
              obtain ⟨fs1, st1⟩ := pair
              simp only [get_folder, hlook, hex, hdir, hmi, Bool.not_true,
                Bool.false_eq_true, if_false, if_true, Option.some.injEq,
                Except.ok.injEq, Prod.mk.injEq] at h
              obtain ⟨h1, h2, h3⟩ := h
              subst h1; subst h2
              exact managedInit_preserves (get_folder n)
                (fun a b c d e f hh => ih a b c d e f hh)
                fs st p _ _ hmi
      | false =>
        cases hmi : managedInit (get_folder n) fs st p with
        | none => simp [get_folder, hlook, hex, hmi] at h
        | some res =>
          cases res with
          | error e => simp [get_folder, hlook, hex, hmi] at h
          | ok pair =>
            obtain ⟨fs1, st1⟩ := pair
            simp only [get_folder, hlook, hex, hmi, Bool.false_eq_true,
              if_false, Option.some.injEq, Except.ok.injEq,
              Prod.mk.injEq] at h
            obtain ⟨h1, h2, h3⟩ := h
            subst h1
            have hmp := managedInit_preserves (get_folder n)
              (fun a b c d e f hh => ih a b c d e f hh)
              fs st p fs1 st1 hmi
            refine ⟨hmp.1, fun fs0 hinv => ?_⟩
            have hinv1 := hmp.2 fs0 hinv
            refine ⟨hinv1.1, fun r hrmem => ?_⟩
            rw [← h2] at hrmem
            simp only [List.mem_append, List.mem_singleton] at hrmem
            rcases hrmem with hrmem | hrmem
            · exact hinv1.2 r hrmem
            · subst hrmem
              cases hc : FS.pathExists fs0 r with
              | false => rfl
              | true =>
                have := hinv.1 r hc
                rw [hex] at this
                cases this

theorem track_file_preserves (fuel : Nat) (fs : FS) (st : TFMState)
    (p : FsPath) (fs' : FS) (st' : TFMState)
    (h : track_file fuel fs st p = some (.ok (fs', st'))) :
    (∀ r, FS.pathExists fs r = true → FS.pathExists fs' r = true) ∧
    (∀ fs0, TrackerInv fs0 fs st → TrackerInv fs0 fs' st') := by
  unfold track_file at h
  cases hdup : st.files.any (fun q => compare_paths p q) with
  | true =>
    simp only [hdup, if_true, Option.some.injEq, Except.ok.injEq,
      Prod.mk.injEq] at h
    obtain ⟨h1, h2⟩ := h
    subst h1; subst h2
    exact ⟨fun r hr => hr, fun fs0 hinv => hinv⟩
  | false =>
    simp only [hdup, Bool.false_eq_true, if_false] at h
    cases hg : get_folder fuel fs st (pyParent p) with
    | none => simp only [hg] at h; cases h
    | some res =>
      cases res with
      | error e => simp only [hg] at h; cases h
      | ok triple =>
        obtain ⟨fs1, st1, q1⟩ := triple
        simp only [hg, Option.some.injEq, Except.ok.injEq, Prod.mk.injEq] at h
        obtain ⟨h1, h2⟩ := h
        have hgp := get_folder_preserves fuel fs st (pyParent p) fs1 st1 q1 hg
        subst h2
        refine ⟨?_, ?_⟩
        · intro r hr
          rw [← h1]
          cases hex : FS.pathExists fs1 p with
          | true => simpa [hex] using hgp.1 r hr
          | false =>
            simp only [hex, Bool.false_eq_true, if_false]
            exact FS.pathExists_touchAdd fs1 p r (hgp.1 r hr)
        · intro fs0 hinv
          have hinv1 := hgp.2 fs0 hinv
          refine ⟨?_, ?_⟩
          · intro r hr
            rw [← h1]
            cases hex : FS.pathExists fs1 p with
            | true => simpa [hex] using hinv1.1 r hr
            | false =>
              simp only [hex, Bool.false_eq_true, if_false]
              exact FS.pathExists_touchAdd fs1 p r (hinv1.1 r hr)
          · intro r hrmem
            exact hinv1.2 r hrmem

theorem reaches_inv (fs0 fs : FS) (st : TFMState) (h : Reaches fs0 fs st) :
    TrackerInv fs0 fs st := by
  induction h with
  | init => exact ⟨fun r hr => hr, by simp [initialTFM]⟩
  | stepGet fuel fs1 st1 p q fs2 st2 hre heq ih =>
    exact (get_folder_preserves fuel fs1 st1 p fs2 st2 q heq).2 fs0 ih
  | stepTrack fuel fs1 st1 p fs2 st2 hre heq ih =>
    exact (track_file_preserves fuel fs1 st1 p fs2 st2 heq).2 fs0 ih

/-- C8: a folder is present in the tracked-folders set only if the tracker
itself created it.  First part: in every configuration reachable from an
initial filesystem by successful `get_folder`/`track_file` calls, every
tracked folder was absent from the initial filesystem.  Second part: a
`get_folder` call on a path that already exists on disk as a directory
(with existing parent, as on any well-formed filesystem) returns a wrapper
while leaving the filesystem and the tracked sets unchanged - so cleanup,
which removes only tracked folders, never deletes a pre-existing
caller-owned folder. -/
theorem tracked_folders_only_created (fs0 fs : FS) (st : TFMState)
    (p : FsPath) (fuel : Nat) :
    (Reaches fs0 fs st → ∀ r ∈ st.folders, FS.pathExists fs0 r = false) ∧
    (FS.isDir fs p = true → FS.pathExists fs (pyParent p) = true →
      ∃ q, get_folder (fuel + 1) fs st p = some (.ok (fs, st, q))) := by
  constructor
  · intro h
    exact (reaches_inv fs0 fs st h).2
  · intro hdir hpar
    have hex : FS.pathExists fs p = true := by
      simp [FS.pathExists, hdir]
    cases hlook : trackedLookup st p with
    | some q0 =>
      exact ⟨q0, by simp only [get_folder, hlook]⟩
    | none =>
      refine ⟨p, ?_⟩
      simp only [get_folder, hlook, hex, hdir, managedInit, hpar,
        Bool.not_true, Bool.false_eq_true, if_false, if_true]

/-- Witness for C8: from the initial filesystem holding only the root, one
`get_folder` call creates and tracks `/tmp`; the tracked folder was absent
initially, and a second call on the now-existing directory returns it while
changing nothing. -/
theorem tracked_folders_only_created_witness :
    (∀ r ∈ (⟨[["/", "tmp"]], [], false⟩ : TFMState).folders,
      FS.pathExists ⟨[["/"]], []⟩ r = false) ∧
    ∃ q, get_folder 1 ⟨[["/"], ["/", "tmp"]], []⟩ ⟨[["/", "tmp"]], [], false⟩
        ["/", "tmp"] =
      some (.ok (⟨[["/"], ["/", "tmp"]], []⟩, ⟨[["/", "tmp"]], [], false⟩, q)) :=
  ⟨(tracked_folders_only_created ⟨[["/"]], []⟩ ⟨[["/"], ["/", "tmp"]], []⟩
      ⟨[["/", "tmp"]], [], false⟩ ["/", "tmp"] 0).1
      (Reaches.stepGet 2 ⟨[["/"]], []⟩ initialTFM ["/", "tmp"] ["/", "tmp"]
        ⟨[["/"], ["/", "tmp"]], []⟩ ⟨[["/", "tmp"]], [], false⟩
        Reaches.init rfl),
    (tracked_folders_only_created ⟨[["/"]], []⟩ ⟨[["/"], ["/", "tmp"]], []⟩
      ⟨[["/", "tmp"]], [], false⟩ ["/", "tmp"] 0).2 (by decide) (by decide)⟩

/-- C9 counterexample: a manager tracking the single created folder `/r` and
no files, on a filesystem containing it: `cleanup()` succeeds and empties
the tracked-files set, but the tracked-folders set still holds `/r`
afterwards - so the claim that both internal sets are empty after
`cleanup()` returns is false. -/
theorem cleanup_keeps_tracked_folders :
    manager_cleanup ⟨[["/", "r"]], []⟩ ⟨[["/", "r"]], [], false⟩ false =
      some (.ok (⟨[], []⟩, ⟨[["/", "r"]], [], false⟩)) ∧
    (⟨[["/", "r"]], [], false⟩ : TFMState).folders ≠ [] :=
  ⟨rfl, by decide⟩

/-- C9 (amended): after `cleanup()` returns, the tracked-files set is empty
and the tracked-folders set is left unchanged - the source assigns
`self.__files = []` but never clears `self.__folders`. -/
theorem cleanup_empties_files_keeps_folders (fs : FS) (st : TFMState)
    (force : Bool) (fs' : FS) (st' : TFMState)
    (h : manager_cleanup fs st force = some (.ok (fs', st'))) :
    st'.files = [] ∧ st'.folders = st.folders := by
  unfold manager_cleanup at h
  cases hq : cleanup_order st.folders with
  | none => simp only [hq] at h; cases h
  | some queue =>
    cases hc : cleanupFolders force (cleanupFiles fs st.files) queue with
    | error e => simp only [hq, hc] at h; cases h
    | ok fs2 =>
      simp only [hq, hc, Option.some.injEq, Except.ok.injEq,
        Prod.mk.injEq] at h
      obtain ⟨h1, h2⟩ := h
      subst h2
      exact ⟨rfl, rfl⟩

/-- Witness for C9's amended claim: a tracker holding the folder `/r` and
the file `/r/f.tmp`. -/
theorem cleanup_empties_files_keeps_folders_witness :
    (⟨[["/", "r"]], [], false⟩ : TFMState).files = [] ∧
    (⟨[["/", "r"]], [], false⟩ : TFMState).folders =
      (⟨[["/", "r"]], [["/", "r", "f.tmp"]], false⟩ : TFMState).folders :=
  cleanup_empties_files_keeps_folders
    ⟨[["/", "r"]], [(["/", "r", "f.tmp"], "")]⟩
    ⟨[["/", "r"]], [["/", "r", "f.tmp"]], false⟩ false
    ⟨[], []⟩ ⟨[["/", "r"]], [], false⟩ rfl

/-- C10: for every path that exists on the filesystem and is not a
directory, and every manager state whose tracked folders all lie on the
filesystem as directories (an invariant of reachable states), `get_folder`
raises the bare `ValueError` of the source - not one of the two wrapped
manipulator error kinds - and, the raise preceding every mutation, the
tracked-folders and tracked-files sets are unchanged (an error result of the
model carries no successor state). -/
theorem get_folder_nondir_valueError (fuel : Nat) (fs : FS) (st : TFMState)
    (p : FsPath) (h1 : FS.pathExists fs p = true)
    (h2 : FS.isDir fs p = false)
    (h3 : ∀ q ∈ st.folders, FS.isDir fs q = true) :
    get_folder (fuel + 1) fs st p = some (.error .valueError) := by
  have hlook : trackedLookup st p = none := by
    cases hfind : trackedLookup st p with
    | none => rfl
    | some q =>
      have hq : q ∈ st.folders := List.mem_of_find?_eq_some hfind
      have hbeq := List.find?_some hfind
      have heq : lowerPath q = lowerPath p := eq_of_beq hbeq
      have hdirq := h3 q hq
      have hdirp : FS.isDir fs p = true := by
        unfold FS.isDir at hdirq ⊢
        rw [← heq]
        exact hdirq
      rw [h2] at hdirp
      cases hdirp
  simp only [get_folder, hlook, h1, h2, Bool.not_false, if_true]

/-- Witness for C10: `get_folder` on the existing regular file `/f.txt` with
a fresh manager. -/
theorem get_folder_nondir_valueError_witness :
    FS.pathExists ⟨[["/"]], [(["/", "f.txt"], "")]⟩ ["/", "f.txt"] = true ∧
    FS.isDir ⟨[["/"]], [(["/", "f.txt"], "")]⟩ ["/", "f.txt"] = false ∧
    get_folder 1 ⟨[["/"]], [(["/", "f.txt"], "")]⟩ initialTFM ["/", "f.txt"] =
      some (.error .valueError) :=
  ⟨by decide, by decide,
    get_folder_nondir_valueError 0 ⟨[["/"]], [(["/", "f.txt"], "")]⟩
      initialTFM ["/", "f.txt"] (by decide) (by decide)
      (by intro q hq; simp [initialTFM] at hq)⟩
